import Mathlib

/-!
Verification of the load-order resolver of `src/config/mod_config_manager.py`
(the Nmodm mod launcher).  The Python `ModConfigManager` keeps two in-memory
collections, `packages : List[ModPackage]` and `natives : List[ModNative]`,
and mutates them through the dependency-management methods.  We embed those
collections as Lean lists of records and each method as a pure function from
the old collection(s) to the new one(s), following the Python statement by
statement.  Python locals that hold intermediate collections become named
top-level helper functions.  Python `dataclass` equality is structural, so
object comparisons like `other_native != target_native` become decidable
equality on records.  Python mutation through an object reference held while
the list is rewritten is modelled by tracking the object's index and writing
back with `List.set`.
-/

namespace Nmodm

/-! ### Python string primitives

The manager manipulates identifiers with `str.replace`, `str.endswith`,
`in` (substring test), `str.lower` and `pathlib.Path(...).name`.  We model
them on `List Char`.  `Path(...).name` is modelled for the relative-path
shapes the manager produces: trailing separators are ignored and the part
after the last `/` or `\` separator is returned (the code targets Windows,
where both separate). -/

/-- Python `str.replace(pat, rep)`: replace all non-overlapping occurrences,
left to right.  Fuel-recursive; fuel `length + 1` always suffices for a
non-empty pattern. -/
def replaceAllAux : Nat → List Char → List Char → List Char → List Char
  | 0, s, _, _ => s
  | Nat.succ fuel, s, pat, rep =>
    if pat.isPrefixOf s ∧ pat ≠ [] then
      rep ++ replaceAllAux fuel (s.drop pat.length) pat rep
    else
      match s with
      | [] => []
      | c :: rest => c :: replaceAllAux fuel rest pat rep

def pyReplace (s pat rep : String) : String :=
  ⟨replaceAllAux (s.data.length + 1) s.data pat.data rep.data⟩

/-- Python `str.endswith`. -/
def pyEndsWith (s suffixStr : String) : Bool :=
  suffixStr.data.isSuffixOf s.data

/-- Substring test on char lists: does `pat` occur inside `s`? -/
def listContainsSub (pat : List Char) : List Char → Bool
  | [] => pat.isPrefixOf []
  | c :: rest => pat.isPrefixOf (c :: rest) || listContainsSub pat rest

/-- Python `pat in s` substring containment. -/
def strContains (s pat : String) : Bool :=
  listContainsSub pat.data s.data

/-- Python `str.lower` (ASCII case folding suffices for the fragments the
code compares against). -/
def pyLower (s : String) : String :=
  ⟨s.data.map Char.toLower⟩

/-- The external-mod decoration the manager appends to identifiers. -/
def extTag : String := " (外部)"

/-- `some_id.replace(" (外部)", "")`, used by every lookup in the manager. -/
def cleanExt (s : String) : String := pyReplace s extTag ""

def isSep (c : Char) : Bool := c = '/' || c = '\\'

/-- Characters after the last path separator. -/
def afterLastSep (l : List Char) : List Char :=
  l.foldl (fun acc c => if isSep c then [] else acc ++ [c]) []

/-- Python `Path(p).name` for the relative paths the manager handles. -/
def pathName (p : String) : String :=
  ⟨afterLastSep ((p.data.reverse.dropWhile isSep).reverse)⟩

/-! ### Data model

`ModPackage` / `ModNative` dataclasses and the `{"id": ..., "optional": ...}`
constraint dictionaries that populate `load_after` / `load_before`. -/

/-- One `{"id": ..., "optional": ...}` constraint record. -/
structure Dep where
  id : String
  optional : Bool
deriving DecidableEq

/-- `ModPackage` dataclass. -/
structure Package where
  id : String
  source : String
  load_after : Option (List Dep) := none
  load_before : Option (List Dep) := none
  enabled : Bool := true
  is_external : Bool := false
  comment : String := ""
deriving DecidableEq

/-- `ModNative` dataclass. -/
structure Native where
  path : String
  optional : Bool := false
  enabled : Bool := true
  initializer : Option String := none
  finalizer : Option String := none
  load_after : Option (List Dep) := none
  load_before : Option (List Dep) := none
  load_early : Bool := false
  is_external : Bool := false
  comment : String := ""
deriving DecidableEq

/-- The repeated native lookup condition
`Path(native.path).name == clean or native.path == clean or
native.path.endswith(clean)`. -/
def matchesNative (n : Native) (clean : String) : Bool :=
  pathName n.path == clean || n.path == clean || pyEndsWith n.path clean

/-- First native matching `clean` (loops that `break` on the first hit). -/
def findNativeIdx (ns : List Native) (clean : String) : Option Nat :=
  ns.findIdx? (fun n => matchesNative n clean)

/-! ### `set_specific_dll_order` and its helpers -/

/-- The hard-coded `specific_orders` table:
`nighter.dll` must load before `nrsc.dll`. -/
def specificOrders : List (String × String) := [("nighter.dll", "nrsc.dll")]

/-- The `if/elif` search loop of `set_specific_dll_order`: both slots are
filled independently and, matching the Python loop without `break`, the last
matching native wins each slot; a native matching both patterns only fills
the first slot. -/
def findPairAux (fc sc : String) :
    List Native → Nat → Option Nat × Option Nat → Option Nat × Option Nat
  | [], _, acc => acc
  | n :: rest, k, acc =>
    findPairAux fc sc rest (k + 1)
      (if matchesNative n fc then (some k, acc.2)
       else if matchesNative n sc then (acc.1, some k)
       else acc)

def findPairIdx (ns : List Native) (fc sc : String) : Option Nat × Option Nat :=
  findPairAux fc sc ns 0 (none, none)

/-- `_would_create_circular_dependency(first, second)`: some enabled native
named `second` already lists `first` in its `load_before`. -/
def would_create_circular_dependency (ns : List Native) (firstDll secondDll : String) : Bool :=
  ns.any (fun n =>
    n.enabled && pathName n.path == secondDll &&
      (n.load_before.getD []).any (fun d => d.id == firstDll))

/-- The surviving constraints after `_remove_reverse_dependency` rewrites one
native: everything not targeting `toDll`. -/
def rr_kept (n : Native) (toDll : String) : List Dep :=
  (n.load_before.getD []).filter (fun d => d.id != toDll)

/-- `_remove_reverse_dependency(from_dll, to_dll)`: every enabled native named
`from_dll` with a truthy `load_before` drops its constraints on `to_dll`;
an emptied list collapses to `None`. -/
def remove_reverse_dependency (ns : List Native) (fromDll toDll : String) : List Native :=
  ns.map (fun n =>
    if n.enabled && pathName n.path == fromDll && !(n.load_before.getD []).isEmpty then
      { n with load_before := if (rr_kept n toDll).isEmpty then none else some (rr_kept n toDll) }
    else n)

/-- The cycle-avoidance step of `set_specific_dll_order`: if the reverse
relation exists it is removed first. -/
def sso_after_cycle_check (ns : List Native) (fn sn : Native) : List Native :=
  if would_create_circular_dependency ns (pathName fn.path) (pathName sn.path) then
    remove_reverse_dependency ns (pathName sn.path) (pathName fn.path)
  else ns

/-- The append step of `set_specific_dll_order`: a falsy `load_before`
becomes `[]`, and `{id: second, optional: false}` is appended unless an edge
with that id is already present. -/
def sso_new_load_before (fn1 : Native) (sName : String) : List Dep :=
  if (fn1.load_before.getD []).any (fun d => d.id == sName) then fn1.load_before.getD []
  else fn1.load_before.getD [] ++ [⟨sName, false⟩]

/-- `set_specific_dll_order(first_dll, second_dll)`.  Locates both natives
(last match per slot), fails if either is missing or disabled, removes a
reverse edge that would create a two-node cycle, then appends
`{id: second, optional: false}` to the first native's `load_before` unless the
edge is already present.  The Python mutates the found object in place; we
track its index and write back with `List.set` (the reverse-removal may have
rewritten the object, so it is re-read from the updated list first). -/
def set_specific_dll_order (ns : List Native) (firstDll secondDll : String) :
    Bool × List Native :=
  match findPairIdx ns (cleanExt firstDll) (cleanExt secondDll) with
  | (some i, some j) =>
    match ns[i]?, ns[j]? with
    | some fn, some sn =>
      if fn.enabled && sn.enabled then
        match (sso_after_cycle_check ns fn sn)[i]? with
        | some fn1 =>
          (true, (sso_after_cycle_check ns fn sn).set i
            { fn1 with load_before := some (sso_new_load_before fn1 (pathName sn.path)) })
        | none => (false, ns)
      else (false, ns)
    | _, _ => (false, ns)
  | _ => (false, ns)

/-- The per-pair enabled test of `ensure_specific_dll_orders` (exact
file-name match). -/
def ensure_pair_enabled (ns : List Native) (d : String) : Bool :=
  ns.any (fun n => pathName n.path == d && n.enabled)

/-- One iteration of the `ensure_specific_dll_orders` loop. -/
def ensure_step (acc : List Native) (pr : String × String) : List Native :=
  if ensure_pair_enabled acc pr.1 && ensure_pair_enabled acc pr.2 then
    (set_specific_dll_order acc pr.1 pr.2).2
  else acc

/-- `ensure_specific_dll_orders()`: for each fixed pair whose two natives are
enabled, apply `set_specific_dll_order`. -/
def ensure_specific_dll_orders (ns : List Native) : List Native :=
  specificOrders.foldl ensure_step ns

/-- `_has_only_specific_order_deps(native)`: `load_before` is truthy and every
constraint in it is one of the fixed pairs whose first component is this
native's file name. -/
def has_only_specific_order_deps (n : Native) : Bool :=
  if (n.load_before.getD []).isEmpty then false
  else
    (n.load_before.getD []).all (fun dep =>
      specificOrders.any (fun pr => pathName n.path == pr.1 && dep.id == pr.2))

/-- `_dll_depends_on(dll_name, target_dll)`: some enabled native named
`dll_name` lists `target_dll` in its `load_before`. -/
def dll_depends_on (ns : List Native) (dllName targetDll : String) : Bool :=
  ns.any (fun n =>
    n.enabled && pathName n.path == dllName &&
      (n.load_before.getD []).any (fun d => d.id == targetDll))

/-- The filter of `_optimize_force_load_dependencies`: keep a constraint
unless its target is reachable through another constraint of the same
(pre-optimization) list. -/
def optimize_keep (ns : List Native) (t : Native) : List Dep :=
  (t.load_before.getD []).filter (fun dep =>
    !((t.load_before.getD []).any (fun od =>
      od.id != dep.id && dll_depends_on ns od.id dep.id)))

/-- `_optimize_force_load_dependencies(dll_name)`: on the first native
matching `dll_name`, drop every `load_before` constraint whose target is
reachable through another constraint of the same list (checked against the
pre-optimization state); an emptied list collapses to `None`. -/
def optimize_force_load_dependencies (ns : List Native) (dllName : String) : List Native :=
  match findNativeIdx ns (cleanExt dllName) with
  | none => ns
  | some i =>
    match ns[i]? with
    | none => ns
    | some t =>
      if (t.load_before.getD []).isEmpty then ns
      else
        ns.set i { t with load_before :=
          if (optimize_keep ns t).isEmpty then none else some (optimize_keep ns t) }

/-! ### Force-first (natives) -/

/-- The other-enabled-file-names collection used by the force-first methods
(`other_native != target_native` is dataclass, i.e. structural, inequality). -/
def other_enabled_dll_names (ns : List Native) (target : Native) : List String :=
  (ns.filter (fun o => o.enabled && decide (o ≠ target))).map (fun o => pathName o.path)

/-- `is_force_load_first_native(dll_name)`: the loop returns on the first
matching native whose `load_before` is truthy; matches with a falsy
`load_before` fall through to later natives.  Python builds `set`s, so the
superset test is plain membership. -/
def is_force_load_first_native (ns : List Native) (dllName : String) : Bool :=
  match ns.find? (fun n => matchesNative n (cleanExt dllName)
      && !(n.load_before.getD []).isEmpty) with
  | none => false
  | some n =>
    (other_enabled_dll_names ns n).all (fun x =>
      ((n.load_before.getD []).map (fun d => d.id)).contains x)

/-- The clearing loop of `set_force_load_first_native`: every native not
structurally equal to the target loses its `load_before` unless it holds
only fixed-pair constraints. -/
def sflf_clear_others (ns : List Native) (target : Native) : List Native :=
  ns.map (fun o =>
    if decide (o = target) then o
    else if !(o.load_before.getD []).isEmpty && has_only_specific_order_deps o then o
    else { o with load_before := none })

/-- The rebuilt `load_before` of the force-first target: all other enabled
file names as mandatory constraints, or `None` when there are none. -/
def sflf_new_load_before (otherDlls : List String) : Option (List Dep) :=
  if otherDlls.isEmpty then none
  else some (otherDlls.map (fun d => ({ id := d, optional := false } : Dep)))

/-- `set_force_load_first_native(dll_name)`: find the target (first match),
clear the other natives, rebuild the target's `load_before` from the
cleared collection, re-apply the fixed pairs, then optimize the target's
list (looked up again by the target's file name). -/
def set_force_load_first_native (ns : List Native) (dllName : String) :
    Bool × List Native :=
  match findNativeIdx ns (cleanExt dllName) with
  | none => (false, ns)
  | some i =>
    match ns[i]? with
    | none => (false, ns)
    | some target =>
      (true, optimize_force_load_dependencies
        (ensure_specific_dll_orders
          ((sflf_clear_others ns target).set i
            { target with load_before := (sflf_new_load_before
                (other_enabled_dll_names (sflf_clear_others ns target) target)) }))
        (pathName target.path))

/-! ### Force-last (packages) -/

/-- The clearing loop of `set_force_load_last`: every package not structurally
equal to the target loses its `load_after`. -/
def sfll_clear_others (ps : List Package) (target : Package) : List Package :=
  ps.map (fun o => if decide (o = target) then o else { o with load_after := none })

/-- Ids of the enabled packages other than the (cleaned) target id. -/
def other_enabled_mod_ids (ps : List Package) (clean : String) : List String :=
  (ps.filter (fun p => p.enabled && p.id != clean)).map (fun p => p.id)

/-- The rebuilt `load_after` of the force-last target: every other enabled
package id as an optional constraint, or `None` when there are none. -/
def sfll_new_load_after (others : List String) : Option (List Dep) :=
  if others.isEmpty then none
  else some (others.map (fun m => ({ id := m, optional := true } : Dep)))

/-- `set_force_load_last(mod_id)`: find the target by exact id match on the
cleaned identifier, clear `load_after` on every package not structurally
equal to the target, then set the target's `load_after` from the cleared
collection. -/
def set_force_load_last (ps : List Package) (modId : String) : Bool × List Package :=
  match ps.findIdx? (fun p => p.id == cleanExt modId) with
  | none => (false, ps)
  | some i =>
    match ps[i]? with
    | none => (false, ps)
    | some target =>
      (true, (sfll_clear_others ps target).set i
        { target with load_after := (sfll_new_load_after
            (other_enabled_mod_ids (sfll_clear_others ps target) (cleanExt modId))) })

/-- The `set` of other enabled package ids built by `is_force_load_last`
(Python `set`s become deduplicated lists, preserving cardinalities). -/
def ifll_other_enabled (ps : List Package) (clean : String) : List String :=
  (other_enabled_mod_ids ps clean).dedup

/-- `len(load_after_ids & other_enabled_mods)`. -/
def ifll_inter_count (la : List Dep) (others : List String) : Nat :=
  ((la.map (fun d => d.id)).dedup.filter (fun x => others.contains x)).length

/-- `is_force_load_last(mod_id)`: the overlap heuristic.  Python compares
`intersection_count >= len(other_enabled_mods) * 0.5`; the float product is
exact for these cardinalities, so it is stated as `2 * count ≥ n`. -/
def is_force_load_last (ps : List Package) (modId : String) : Bool :=
  match ps.find? (fun p => p.id == cleanExt modId) with
  | none => false
  | some target =>
    if (target.load_after.getD []).isEmpty then false
    else if (ifll_other_enabled ps (cleanExt modId)).length = 0 then false
    else if (ifll_other_enabled ps (cleanExt modId)).length ≤ 3 then
      decide (1 ≤ ifll_inter_count (target.load_after.getD [])
        (ifll_other_enabled ps (cleanExt modId)))
    else
      decide ((ifll_other_enabled ps (cleanExt modId)).length ≤
        2 * ifll_inter_count (target.load_after.getD [])
          (ifll_other_enabled ps (cleanExt modId)))

/-! ### Reconciliation -/

def enabled_package_ids (ps : List Package) : List String :=
  (ps.filter (fun p => p.enabled)).map (fun p => p.id)

def enabled_native_ids (ns : List Native) : List String :=
  (ns.filter (fun n => n.enabled)).map (fun n => pathName n.path)

/-- The package step of `update_load_dependencies`: filter a truthy
`load_after` against the enabled package ids, collapsing an emptied result
to `None`; falsy lists are skipped untouched. -/
def uld_package (epi : List String) (pkg : Package) : Package :=
  if (pkg.load_after.getD []).isEmpty then pkg
  else
    { pkg with load_after :=
        if ((pkg.load_after.getD []).filter (fun dep => epi.contains dep.id)).isEmpty
        then none
        else some ((pkg.load_after.getD []).filter (fun dep => epi.contains dep.id)) }

/-- The native step of `update_load_dependencies`: same filtering applied to
`load_before` and then `load_after`, against the enabled native file names. -/
def uld_native_before (eni : List String) (n : Native) : Native :=
  if (n.load_before.getD []).isEmpty then n
  else
    { n with load_before :=
        if ((n.load_before.getD []).filter (fun dep => eni.contains dep.id)).isEmpty
        then none
        else some ((n.load_before.getD []).filter (fun dep => eni.contains dep.id)) }

def uld_native_after (eni : List String) (n : Native) : Native :=
  if (n.load_after.getD []).isEmpty then n
  else
    { n with load_after :=
        if ((n.load_after.getD []).filter (fun dep => eni.contains dep.id)).isEmpty
        then none
        else some ((n.load_after.getD []).filter (fun dep => eni.contains dep.id)) }

/-- `update_load_dependencies()`: filter the packages' `load_after` and the
natives' `load_before`/`load_after` against the enabled identifier sets,
then re-apply the fixed native pairs.  Packages' `load_before` lists are not
filtered by the Python code. -/
def update_load_dependencies (ps : List Package) (ns : List Native) :
    List Package × List Native :=
  (ps.map (uld_package (enabled_package_ids ps)),
   ensure_specific_dll_orders
     (ns.map (fun n => uld_native_after (enabled_native_ids ns)
       (uld_native_before (enabled_native_ids ns) n))))

/-! ### add_package / add_native -/

/-- `clean_id = x.replace(" (外部)", "") if x.endswith(" (外部)") else x`,
the normalization both `add_package` and `add_native` apply. -/
def strip_external_decoration (s : String) : String :=
  if pyEndsWith s extTag then pyReplace s extTag "" else s

/-- The `source` stored by `add_package`: the external registry entry when
the id is decorated and registered, else the passed path. -/
def add_package_source (externalPackages : List (String × String))
    (packageId sourcePath : String) : String :=
  if pyEndsWith packageId extTag then
    match externalPackages.find? (fun kv => kv.1 == strip_external_decoration packageId) with
    | some kv => kv.2
    | none => sourcePath
  else sourcePath

/-- `add_package(package_id, source_path, enabled)`.  The external registry
`self.external_packages` dict is passed as an association list. -/
def add_package (externalPackages : List (String × String)) (ps : List Package)
    (packageId sourcePath : String) (enabled : Bool) : Bool × List Package :=
  if ps.any (fun p => p.id == strip_external_decoration packageId) then (false, ps)
  else
    (true, ps ++ [{ id := strip_external_decoration packageId,
                    source := add_package_source externalPackages packageId sourcePath,
                    enabled := enabled,
                    is_external := pyEndsWith packageId extTag }])

/-- The `path` stored by `add_native`: the external registry entry when the
path is decorated and registered, else the cleaned path. -/
def add_native_path (externalNatives : List (String × String)) (dllPath : String) : String :=
  if pyEndsWith dllPath extTag then
    match externalNatives.find? (fun kv => kv.1 == strip_external_decoration dllPath) with
    | some kv => kv.2
    | none => strip_external_decoration dllPath
  else strip_external_decoration dllPath

/-- The hard-coded SeamlessCoop early-load default of `add_native`, applied
to the cleaned path. -/
def add_native_load_early (dllPath : String) (loadEarly : Bool) : Bool :=
  if !loadEarly && strContains (pyLower (strip_external_decoration dllPath)) "seamlesscoop"
      && strContains (pyLower (strip_external_decoration dllPath)) "nrsc.dll" then true
  else loadEarly

/-- `add_native(dll_path, optional, enabled, load_early)`. -/
def add_native (externalNatives : List (String × String)) (ns : List Native)
    (dllPath : String) (optionalFlag enabled loadEarly : Bool) : Bool × List Native :=
  if ns.any (fun n => n.path == strip_external_decoration dllPath) then (false, ns)
  else
    (true, ns ++ [{ path := add_native_path externalNatives dllPath,
                    optional := optionalFlag, enabled := enabled,
                    load_early := add_native_load_early dllPath loadEarly,
                    is_external := pyEndsWith dllPath extTag }])

/-- The success guard of `set_specific_dll_order`: both natives are found by
the `if/elif` search and both are enabled. -/
def pair_lookup_ok (ns : List Native) (firstDll secondDll : String) : Bool :=
  match findPairIdx ns (cleanExt firstDll) (cleanExt secondDll) with
  | (some i, some j) =>
    match ns[i]?, ns[j]? with
    | some fn, some sn => fn.enabled && sn.enabled
    | _, _ => false
  | _ => false

/-- Specification predicate: every constraint list stored in `ol` is
non-empty and references only identifiers in `S`. -/
def deps_in (S : List String) (ol : Option (List Dep)) : Prop :=
  ∀ l, ol = some l → l ≠ [] ∧ ∀ dp ∈ l, dp.id ∈ S

/-- Specification predicate for one native inside a collection whose enabled
file names are `S`: both constraint lists satisfy `deps_in S`, and if the
native is enabled its own file name is in `S`. -/
def native_ok (S : List String) (n : Native) : Prop :=
  deps_in S n.load_before ∧ deps_in S n.load_after ∧
    (n.enabled = true → pathName n.path ∈ S)

/-! ### List helper lemmas -/

theorem set_self {α : Type _} : ∀ (l : List α) (i : Nat) (a : α),
    l[i]? = some a → l.set i a = l
  | [], i, a, h => by simp at h
  | x :: xs, 0, a, h => by
    simp only [List.getElem?_cons_zero, Option.some.injEq] at h
    simp [List.set, h]
  | x :: xs, i + 1, a, h => by
    simp only [List.getElem?_cons_succ] at h
    simp [List.set, set_self xs i a h]

theorem matchesNative_path_congr {n n' : Native} (h : n.path = n'.path) (c : String) :
    matchesNative n c = matchesNative n' c := by
  simp [matchesNative, h]

theorem findPairAux_congr (fc sc : String) :
    ∀ (ns ns' : List Native), ns.map (fun n => n.path) = ns'.map (fun n => n.path) →
      ∀ (k : Nat) (acc : Option Nat × Option Nat),
        findPairAux fc sc ns k acc = findPairAux fc sc ns' k acc
  | [], [], _, _, _ => rfl
  | [], _ :: _, h, _, _ => by simp at h
  | _ :: _, [], h, _, _ => by simp at h
  | n :: rest, n' :: rest', h, k, acc => by
    simp only [List.map_cons, List.cons.injEq] at h
    obtain ⟨h1, h2⟩ := h
    simp only [findPairAux, matchesNative_path_congr h1]
    exact findPairAux_congr fc sc rest rest' h2 (k + 1) _

theorem findPairIdx_congr {ns ns' : List Native}
    (h : ns.map (fun n => n.path) = ns'.map (fun n => n.path)) (fc sc : String) :
    findPairIdx ns fc sc = findPairIdx ns' fc sc :=
  findPairAux_congr fc sc ns ns' h 0 (none, none)

theorem findIdxAux_congr :
    ∀ {ns ns' : List Native}, ns.map (fun n => n.path) = ns'.map (fun n => n.path) →
      ∀ (c : String) (k : Nat),
        List.findIdx? (fun n => matchesNative n c) ns k
          = List.findIdx? (fun n => matchesNative n c) ns' k
  | [], [], _, _, _ => rfl
  | [], _ :: _, h, _, _ => by simp at h
  | _ :: _, [], h, _, _ => by simp at h
  | n :: rest, n' :: rest', h, c, k => by
    simp only [List.map_cons, List.cons.injEq] at h
    obtain ⟨h1, h2⟩ := h
    simp only [List.findIdx?_cons, matchesNative_path_congr h1]
    rw [findIdxAux_congr h2 c (k + 1)]

theorem findNativeIdx_congr {ns ns' : List Native}
    (h : ns.map (fun n => n.path) = ns'.map (fun n => n.path)) (c : String) :
    findNativeIdx ns c = findNativeIdx ns' c :=
  findIdxAux_congr h c 0

theorem paths_remove_reverse (ns : List Native) (f t : String) :
    (remove_reverse_dependency ns f t).map (fun n => n.path) = ns.map (fun n => n.path) := by
  unfold remove_reverse_dependency
  rw [List.map_map]
  apply List.map_congr_left
  intro n _
  simp only [Function.comp]
  split <;> rfl

theorem paths_set_preserve {ns : List Native} {i : Nat} {target m : Native}
    (h : ns[i]? = some target) (hp : m.path = target.path) :
    (ns.set i m).map (fun n => n.path) = ns.map (fun n => n.path) := by
  rw [List.map_set]
  apply set_self
  rw [List.getElem?_map, h]
  simp [hp]

/-- `set_specific_dll_order` either fails as a no-op or succeeds with the
canonical rewrite-and-append shape. -/
theorem sso_cases (ns : List Native) (a b : String) :
    set_specific_dll_order ns a b = (false, ns) ∨
    ∃ i j fn sn fn1,
      findPairIdx ns (cleanExt a) (cleanExt b) = (some i, some j) ∧
      ns[i]? = some fn ∧ ns[j]? = some sn ∧
      fn.enabled = true ∧ sn.enabled = true ∧
      (sso_after_cycle_check ns fn sn)[i]? = some fn1 ∧
      set_specific_dll_order ns a b =
        (true, (sso_after_cycle_check ns fn sn).set i
          { fn1 with load_before := some (sso_new_load_before fn1 (pathName sn.path)) }) := by
  unfold set_specific_dll_order
  split
  · split
    · split
      · split
        · rename_i pr i j hpair oi oj fn sn h1 h2 hen ofn1 fn1 h3
          right
          exact ⟨i, j, fn, sn, fn1, hpair, h1, h2,
            ((Bool.and_eq_true _ _).mp hen).1, ((Bool.and_eq_true _ _).mp hen).2, h3, rfl⟩
        · left; rfl
      · left; rfl
    · left; rfl
  · left; rfl

theorem paths_sso (ns : List Native) (a b : String) :
    ((set_specific_dll_order ns a b).2).map (fun n => n.path) = ns.map (fun n => n.path) := by
  rcases sso_cases ns a b with h | ⟨i, j, fn, sn, fn1, _, _, _, _, _, h3, heq⟩
  · rw [h]
  · rw [heq]
    have hp : (sso_after_cycle_check ns fn sn).map (fun n => n.path)
        = ns.map (fun n => n.path) := by
      unfold sso_after_cycle_check
      split
      · exact paths_remove_reverse ns _ _
      · rfl
    calc ((sso_after_cycle_check ns fn sn).set i
            { fn1 with load_before := some (sso_new_load_before fn1 (pathName sn.path)) }).map
              (fun n => n.path)
        = (sso_after_cycle_check ns fn sn).map (fun n => n.path) :=
          paths_set_preserve h3 rfl
      _ = ns.map (fun n => n.path) := hp

theorem paths_ensure_aux :
    ∀ (prs : List (String × String)) (ns : List Native),
      (prs.foldl ensure_step ns).map (fun n => n.path) = ns.map (fun n => n.path)
  | [], _ => rfl
  | pr :: rest, ns => by
    simp only [List.foldl_cons]
    rw [paths_ensure_aux rest]
    unfold ensure_step
    split
    · exact paths_sso ns pr.1 pr.2
    · rfl

theorem paths_ensure (ns : List Native) :
    (ensure_specific_dll_orders ns).map (fun n => n.path) = ns.map (fun n => n.path) :=
  paths_ensure_aux specificOrders ns

/-- A clearing map that rewrites only `load_after` keeps the filtered id
projection of the other-enabled-package computation unchanged. -/
theorem other_ids_map_invariant {g : Package → Package}
    (hg : ∀ p, (g p).id = p.id ∧ (g p).enabled = p.enabled) (ps : List Package) (q : String) :
    other_enabled_mod_ids (ps.map g) q = other_enabled_mod_ids ps q := by
  unfold other_enabled_mod_ids
  induction ps with
  | nil => rfl
  | cons p rest ih =>
    simp only [List.map_cons, List.filter_cons, (hg p).1, (hg p).2]
    by_cases hc : (p.enabled && p.id != q) = true
    · simp only [hc, if_pos, List.map_cons, (hg p).1]
      rw [ih]
    · simp only [hc, if_neg, Bool.not_eq_true]
      exact ih

/-! ### Invariant lemmas for constraint hygiene (C1) -/

theorem mem_of_contains {α : Type _} [BEq α] [LawfulBEq α] {l : List α} {x : α}
    (h : l.contains x = true) : x ∈ l := by
  obtain ⟨y, hy, hbeq⟩ := List.contains_iff_exists_mem_beq.mp h
  rw [beq_iff_eq] at hbeq
  exact hbeq ▸ hy

theorem deps_in_of_empty {S : List String} {ol : Option (List Dep)}
    (hol : ol ≠ some []) (hemp : (ol.getD []).isEmpty = true) : deps_in S ol := by
  intro l hl
  rcases ol with _ | l0
  · exact Option.noConfusion hl
  · rw [Option.getD_some] at hemp
    rw [List.isEmpty_eq_true] at hemp
    subst hemp
    exact absurd rfl hol

/-- Collapsing a sublist of an `S`-referencing list to `none`-or-`some`
keeps `deps_in`. -/
theorem deps_in_collapse {S : List String} {ol : Option (List Dep)}
    (h : deps_in S ol) (kept : List Dep) (hsub : ∀ d ∈ kept, d ∈ ol.getD []) :
    deps_in S (if kept.isEmpty then none else some kept) := by
  intro l hl
  split at hl
  · exact Option.noConfusion hl
  · rename_i hne
    injection hl with hl
    subst hl
    refine ⟨by simpa using hne, ?_⟩
    intro dp hdp
    have hmem := hsub dp hdp
    rcases holv : ol with _ | l0
    · rw [holv] at hmem
      simp at hmem
    · rw [holv, Option.getD_some] at hmem
      exact (h l0 holv).2 dp hmem

/-- A filter against `S.contains` always lands in `deps_in S`. -/
theorem deps_in_filter_contains (S : List String) (l0 : List Dep) :
    deps_in S (if (l0.filter (fun dp => S.contains dp.id)).isEmpty then none
               else some (l0.filter (fun dp => S.contains dp.id))) := by
  intro l hl
  split at hl
  · exact Option.noConfusion hl
  · rename_i hne
    injection hl with hl
    subst hl
    exact ⟨by simpa using hne,
      fun dp hdp => mem_of_contains (List.mem_filter.mp hdp).2⟩

theorem native_ok_remove {S : List String} {ns : List Native}
    (h : ∀ n ∈ ns, native_ok S n) (f t : String) :
    ∀ n ∈ remove_reverse_dependency ns f t, native_ok S n := by
  intro n hn
  unfold remove_reverse_dependency at hn
  obtain ⟨m, hm, rfl⟩ := List.mem_map.mp hn
  have hom := h m hm
  split
  · exact ⟨deps_in_collapse hom.1 _ (fun d hd => (List.mem_filter.mp hd).1),
      hom.2.1, hom.2.2⟩
  · exact hom

/-- The new `load_before` written by `set_specific_dll_order` stays inside
`S` when the old one did and the appended name is in `S`. -/
theorem deps_in_sso_new {S : List String} {fn1 : Native}
    (h : deps_in S fn1.load_before) {sName : String} (hs : sName ∈ S) :
    deps_in S (some (sso_new_load_before fn1 sName)) := by
  intro l hl
  injection hl with hl
  subst hl
  unfold sso_new_load_before
  split
  · rename_i hany
    rcases holv : fn1.load_before with _ | l0
    · rw [holv] at hany
      simp at hany
    · rw [holv] at hany
      simp only [Option.getD_some] at hany
      simp only [Option.getD_some]
      refine ⟨?_, (h l0 holv).2⟩
      intro hnil
      rw [hnil] at hany
      simp at hany
  · constructor
    · simp
    · intro dp hdp
      rcases List.mem_append.mp hdp with hin | hin

      · rcases holv : fn1.load_before with _ | l0
        · rw [holv] at hin
          simp at hin
        · rw [holv, Option.getD_some] at hin
          exact (h l0 holv).2 dp hin
      · rw [List.mem_singleton] at hin
        subst hin
        exact hs

theorem native_ok_sso {S : List String} {ns : List Native}
    (h : ∀ n ∈ ns, native_ok S n) (a b : String) :
    ∀ n ∈ (set_specific_dll_order ns a b).2, native_ok S n := by
  rcases sso_cases ns a b with hc | ⟨i, j, fn, sn, fn1, hpair, h1, h2, he1, he2, h3, heq⟩
  · rw [hc]
    exact h
  · rw [heq]
    have hns1 : ∀ n ∈ sso_after_cycle_check ns fn sn, native_ok S n := by
      unfold sso_after_cycle_check
      split
      · exact native_ok_remove h _ _
      · exact h
    intro n hn
    rcases List.mem_or_eq_of_mem_set hn with hin | rfl
    · exact hns1 n hin
    · have hfn1 : native_ok S fn1 := hns1 fn1 (List.getElem?_mem h3)
      have hsn : sn ∈ ns := List.getElem?_mem h2
      have hsname : pathName sn.path ∈ S := (h sn hsn).2.2 he2
      exact ⟨deps_in_sso_new hfn1.1 hsname, hfn1.2.1, hfn1.2.2⟩

theorem native_ok_ensure_aux {S : List String} :
    ∀ (prs : List (String × String)) (ns : List Native),
      (∀ n ∈ ns, native_ok S n) → ∀ n ∈ prs.foldl ensure_step ns, native_ok S n
  | [], _, h => h
  | pr :: rest, ns, h => by
    simp only [List.foldl_cons]
    apply native_ok_ensure_aux rest
    unfold ensure_step
    split
    · exact native_ok_sso h pr.1 pr.2
    · exact h

theorem native_ok_ensure {S : List String} {ns : List Native}
    (h : ∀ n ∈ ns, native_ok S n) :
    ∀ n ∈ ensure_specific_dll_orders ns, native_ok S n :=
  native_ok_ensure_aux specificOrders ns h

theorem uld_native_before_load_after (E : List String) (x : Native) :
    (uld_native_before E x).load_after = x.load_after := by
  unfold uld_native_before
  split <;> rfl

theorem uld_native_before_path (E : List String) (x : Native) :
    (uld_native_before E x).path = x.path := by
  unfold uld_native_before
  split <;> rfl

theorem uld_native_before_enabled (E : List String) (x : Native) :
    (uld_native_before E x).enabled = x.enabled := by
  unfold uld_native_before
  split <;> rfl

theorem uld_native_after_load_before (E : List String) (x : Native) :
    (uld_native_after E x).load_before = x.load_before := by
  unfold uld_native_after
  split <;> rfl

theorem uld_native_after_path (E : List String) (x : Native) :
    (uld_native_after E x).path = x.path := by
  unfold uld_native_after
  split <;> rfl

theorem uld_native_after_enabled (E : List String) (x : Native) :
    (uld_native_after E x).enabled = x.enabled := by
  unfold uld_native_after
  split <;> rfl

theorem uld_native_before_deps (E : List String) (x : Native)
    (hx : x.load_before ≠ some []) :
    deps_in E (uld_native_before E x).load_before := by
  unfold uld_native_before
  split
  · exact deps_in_of_empty hx (by assumption)
  · exact deps_in_filter_contains E _

theorem uld_native_after_deps (E : List String) (x : Native)
    (hx : x.load_after ≠ some []) :
    deps_in E (uld_native_after E x).load_after := by
  unfold uld_native_after
  split
  · exact deps_in_of_empty hx (by assumption)
  · exact deps_in_filter_contains E _

/-! ### C1 -/

/-- C1 (amended): after `update_load_dependencies`, every constraint in any
package's `load_after` and in any native's `load_before` or `load_after`
targets a currently enabled identifier of its kind, and any constraint list
that becomes empty is absent (`None`) — assuming no degenerate pre-existing
`some []` lists, which the filter skips untouched.  Packages' `load_before`
lists are not filtered (see the counterexample). -/
theorem c1_filtered_lists_reference_enabled (ps : List Package) (ns : List Native)
    (hps : ∀ p ∈ ps, p.load_after ≠ some ([] : List Dep))
    (hns : ∀ n ∈ ns, n.load_before ≠ some ([] : List Dep) ∧
      n.load_after ≠ some ([] : List Dep)) :
    (∀ p ∈ (update_load_dependencies ps ns).1, ∀ l, p.load_after = some l →
        l ≠ [] ∧ ∀ dp ∈ l, dp.id ∈ enabled_package_ids ps) ∧
    (∀ n ∈ (update_load_dependencies ps ns).2,
        (∀ l, n.load_before = some l → l ≠ [] ∧ ∀ dp ∈ l, dp.id ∈ enabled_native_ids ns) ∧
        (∀ l, n.load_after = some l → l ≠ [] ∧ ∀ dp ∈ l, dp.id ∈ enabled_native_ids ns)) := by
  constructor
  · intro p hp
    unfold update_load_dependencies at hp
    obtain ⟨p0, hp0, rfl⟩ := List.mem_map.mp hp
    unfold uld_package
    split
    · exact deps_in_of_empty (hps p0 hp0) (by assumption)
    · exact deps_in_filter_contains _ _
  · intro n hn
    unfold update_load_dependencies at hn
    have base : ∀ m ∈ ns.map (fun x => uld_native_after (enabled_native_ids ns)
        (uld_native_before (enabled_native_ids ns) x)), native_ok (enabled_native_ids ns) m := by
      intro m hm
      obtain ⟨m0, hm0, rfl⟩ := List.mem_map.mp hm
      refine ⟨?_, ?_, ?_⟩
      · rw [uld_native_after_load_before]
        exact uld_native_before_deps _ m0 (hns m0 hm0).1
      · have hla : (uld_native_before (enabled_native_ids ns) m0).load_after ≠ some [] := by
          rw [uld_native_before_load_after]
          exact (hns m0 hm0).2
        exact uld_native_after_deps _ _ hla
      · intro hen
        rw [uld_native_after_path, uld_native_before_path]
        rw [uld_native_after_enabled, uld_native_before_enabled] at hen
        unfold enabled_native_ids
        exact List.mem_map_of_mem _ (List.mem_filter.mpr ⟨hm0, hen⟩)
    have := native_ok_ensure base n hn
    exact ⟨this.1, this.2.1⟩

/-- C1 witness: a disabled package id is purged from another package's
`load_after` and a disabled native name from a native's `load_before`. -/
theorem c1_witness :
    (∀ p ∈ (update_load_dependencies
        [{ id := "A", source := "", enabled := false },
         { id := "B", source := "", load_after := some [⟨"A", true⟩, ⟨"C", true⟩] },
         { id := "C", source := "" }]
        [{ path := "d.dll", enabled := false },
         { path := "e.dll", load_before := some [⟨"d.dll", false⟩] }]).1,
      ∀ l, p.load_after = some l → l ≠ [] ∧ ∀ dp ∈ l, dp.id ∈ enabled_package_ids
        [{ id := "A", source := "", enabled := false },
         { id := "B", source := "", load_after := some [⟨"A", true⟩, ⟨"C", true⟩] },
         { id := "C", source := "" }]) ∧
    (∀ n ∈ (update_load_dependencies
        [{ id := "A", source := "", enabled := false },
         { id := "B", source := "", load_after := some [⟨"A", true⟩, ⟨"C", true⟩] },
         { id := "C", source := "" }]
        [{ path := "d.dll", enabled := false },
         { path := "e.dll", load_before := some [⟨"d.dll", false⟩] }]).2,
      (∀ l, n.load_before = some l → l ≠ [] ∧ ∀ dp ∈ l, dp.id ∈ enabled_native_ids
        [{ path := "d.dll", enabled := false },
         { path := "e.dll", load_before := some [⟨"d.dll", false⟩] }]) ∧
      (∀ l, n.load_after = some l → l ≠ [] ∧ ∀ dp ∈ l, dp.id ∈ enabled_native_ids
        [{ path := "d.dll", enabled := false },
         { path := "e.dll", load_before := some [⟨"d.dll", false⟩] }])) :=
  c1_filtered_lists_reference_enabled
    [{ id := "A", source := "", enabled := false },
     { id := "B", source := "", load_after := some [⟨"A", true⟩, ⟨"C", true⟩] },
     { id := "C", source := "" }]
    [{ path := "d.dll", enabled := false },
     { path := "e.dll", load_before := some [⟨"d.dll", false⟩] }]
    (by decide) (by decide)

/-! ### C6 -/

/-- `_optimize_force_load_dependencies` either leaves the collection alone
(lookup failure or falsy list) or rewrites the found native with the
`optimize_keep` filter. -/
theorem optimize_cases (ns : List Native) (nm : String) :
    (optimize_force_load_dependencies ns nm = ns ∧ findNativeIdx ns (cleanExt nm) = none) ∨
    (∃ i t, findNativeIdx ns (cleanExt nm) = some i ∧ ns[i]? = some t ∧
      (t.load_before.getD []).isEmpty = true ∧
      optimize_force_load_dependencies ns nm = ns) ∨
    (∃ i t, findNativeIdx ns (cleanExt nm) = some i ∧ ns[i]? = some t ∧
      (t.load_before.getD []).isEmpty = false ∧
      optimize_force_load_dependencies ns nm
        = ns.set i { t with load_before :=
            if (optimize_keep ns t).isEmpty then none else some (optimize_keep ns t) }) ∨
    (∃ i, findNativeIdx ns (cleanExt nm) = some i ∧ ns[i]? = none ∧
      optimize_force_load_dependencies ns nm = ns) := by
  unfold optimize_force_load_dependencies
  split
  · rename_i s1 hfi
    exact Or.inl ⟨rfl, hfi⟩
  · split
    · rename_i s1 i hfi s2 hti
      exact Or.inr (Or.inr (Or.inr ⟨i, hfi, hti, rfl⟩))
    · split
      · rename_i s1 i hfi s2 t hti hemp
        exact Or.inr (Or.inl ⟨i, t, hfi, hti, hemp, rfl⟩)
      · rename_i s1 i hfi s2 t hti hemp
        exact Or.inr (Or.inr (Or.inl ⟨i, t, hfi, hti, Bool.eq_false_iff.mpr hemp, rfl⟩))

/-- After `_optimize_force_load_dependencies`, the optimized native's
remaining `load_before` has no constraint on a target reachable (in the
resulting collection) through another of its constraints. -/
theorem optimize_invariant (ns3 : List Native) (nm : String) (i : Nat)
    (hf : findNativeIdx ns3 (cleanExt nm) = some i) :
    ∀ t4, (optimize_force_load_dependencies ns3 nm)[i]? = some t4 →
      ∀ l, t4.load_before = some l →
        ∀ dz ∈ l, ∀ dy ∈ l, dy.id ≠ dz.id →
          dll_depends_on (optimize_force_load_dependencies ns3 nm) dy.id dz.id = false := by
  intro t4 ht4 l hl dz hdz dy hdy hne
  rcases optimize_cases ns3 nm with ⟨_, hnone⟩ | ⟨i', t, hfi, h3, hemp, heq⟩ |
    ⟨i', t, hfi, h3, hemp, heq⟩ | ⟨i', hfi, h3, heq⟩
  · rw [hf] at hnone
    exact Option.noConfusion hnone
  · rw [hf] at hfi
    injection hfi with hii
    subst hii
    rw [heq] at ht4
    rw [h3] at ht4
    injection ht4 with ht4
    subst ht4
    rw [hl, Option.getD_some, List.isEmpty_eq_true] at hemp
    subst hemp
    exact absurd hdz (List.not_mem_nil dz)
  · rw [hf] at hfi
    injection hfi with hii
    subst hii
    rw [heq] at ht4 ⊢
    have hlen : i < ns3.length := (List.getElem?_eq_some_iff.mp h3).1
    rw [List.getElem?_set_eq_of_lt _ hlen] at ht4
    injection ht4 with ht4
    subst ht4
    rw [show ({ t with load_before := (if (optimize_keep ns3 t).isEmpty then none
          else some (optimize_keep ns3 t)) } : Native).load_before
      = (if (optimize_keep ns3 t).isEmpty then none
         else some (optimize_keep ns3 t)) from rfl] at hl
    split at hl
    · exact Option.noConfusion hl
    · rename_i hkeepne
      injection hl with hl
      subst hl
      have hdzf := (List.mem_filter.mp hdz).2
      have hdyl : dy ∈ t.load_before.getD [] := (List.mem_filter.mp hdy).1
      rw [Bool.not_eq_true'] at hdzf
      rw [List.any_eq_false] at hdzf
      have hstep := hdzf dy hdyl
      have hbne : (dy.id != dz.id) = true := by
        rw [bne_iff_ne]
        exact hne
      have hnodep : dll_depends_on ns3 dy.id dz.id = false := by
        rcases Bool.eq_false_or_eq_true (dll_depends_on ns3 dy.id dz.id) with htr | hfa
        · exact absurd (by rw [Bool.and_eq_true]; exact ⟨hbne, htr⟩) hstep
        · exact hfa
      rcases Bool.eq_false_or_eq_true (dll_depends_on (ns3.set i
        { t with load_before := (if (optimize_keep ns3 t).isEmpty then none
            else some (optimize_keep ns3 t)) }) dy.id dz.id) with htr | hfa
      swap
      · exact hfa
      · exfalso
        unfold dll_depends_on at htr
        rw [List.any_eq_true] at htr
        obtain ⟨w, hw, hcond⟩ := htr
        rw [Bool.and_eq_true, Bool.and_eq_true] at hcond
        obtain ⟨⟨hwen, hwname⟩, hwany⟩ := hcond
        have hkeepb : (optimize_keep ns3 t).isEmpty = false := Bool.eq_false_iff.mpr hkeepne
        have hmain : dll_depends_on ns3 dy.id dz.id = true := by
          rcases List.mem_or_eq_of_mem_set hw with hwin | rfl
          · unfold dll_depends_on
            rw [List.any_eq_true]
            exact ⟨w, hwin, by
              rw [Bool.and_eq_true, Bool.and_eq_true]
              exact ⟨⟨hwen, hwname⟩, hwany⟩⟩
          · simp only [hkeepb] at hwany
            rw [show ((if false = true then (none : Option (List Dep))
                else some (optimize_keep ns3 t)).getD []) = optimize_keep ns3 t from rfl] at hwany
            rw [List.any_eq_true] at hwany
            obtain ⟨d2, hd2, hd2beq⟩ := hwany
            have hd2l : d2 ∈ t.load_before.getD [] := (List.mem_filter.mp hd2).1
            unfold dll_depends_on
            rw [List.any_eq_true]
            refine ⟨t, List.getElem?_mem h3, ?_⟩
            rw [Bool.and_eq_true, Bool.and_eq_true]
            refine ⟨⟨hwen, hwname⟩, ?_⟩
            rw [List.any_eq_true]
            exact ⟨d2, hd2l, hd2beq⟩
        rw [hmain] at hnodep
        exact Bool.noConfusion hnodep
  · rw [hf] at hfi
    injection hfi with hii
    subst hii
    rw [heq] at ht4
    rw [h3] at ht4
    exact Option.noConfusion ht4

theorem paths_sflf_clear (ns : List Native) (target : Native) :
    (sflf_clear_others ns target).map (fun n => n.path) = ns.map (fun n => n.path) := by
  unfold sflf_clear_others
  rw [List.map_map]
  apply List.map_congr_left
  intro n _
  simp only [Function.comp]
  split
  · rfl
  · split <;> rfl

theorem sflf_clear_get_target {ns : List Native} {i : Nat} {target : Native}
    (hi : ns[i]? = some target) :
    (sflf_clear_others ns target)[i]? = some target := by
  unfold sflf_clear_others
  rw [List.getElem?_map, hi]
  simp

/-- C6: after `set_force_load_first_native(X)` succeeds on the native at
index `i`, that native's remaining `load_before` contains no constraint on a
target `Z` for which another constraint's target `Y` has (in the resulting
collection) a `load_before` constraint on `Z` — redundant direct edges
reachable through a retained edge are dropped by the optimization pass. -/
theorem c6_force_first_drops_reachable_targets (ns : List Native) (d : String) (i : Nat)
    (target : Native)
    (hfind : findNativeIdx ns (cleanExt d) = some i)
    (hi : ns[i]? = some target)
    (hfind2 : findNativeIdx ns (cleanExt (pathName target.path)) = some i) :
    ∀ t4, (set_force_load_first_native ns d).2[i]? = some t4 →
      ∀ l, t4.load_before = some l →
        ∀ dz ∈ l, ∀ dy ∈ l, dy.id ≠ dz.id →
          dll_depends_on (set_force_load_first_native ns d).2 dy.id dz.id = false := by
  have hres : (set_force_load_first_native ns d).2
      = optimize_force_load_dependencies
          (ensure_specific_dll_orders
            ((sflf_clear_others ns target).set i
              { target with load_before := (sflf_new_load_before
                  (other_enabled_dll_names (sflf_clear_others ns target) target)) }))
          (pathName target.path) := by
    unfold set_force_load_first_native
    simp only [hfind, hi]
  rw [hres]
  have hpaths : (ensure_specific_dll_orders
      ((sflf_clear_others ns target).set i
        { target with load_before := (sflf_new_load_before
            (other_enabled_dll_names (sflf_clear_others ns target) target)) })).map
        (fun n => n.path)
      = ns.map (fun n => n.path) := by
    rw [paths_ensure]
    calc ((sflf_clear_others ns target).set i
            { target with load_before := (sflf_new_load_before
                (other_enabled_dll_names (sflf_clear_others ns target) target)) }).map
            (fun n => n.path)
        = (sflf_clear_others ns target).map (fun n => n.path) :=
          paths_set_preserve (sflf_clear_get_target hi) rfl
      _ = ns.map (fun n => n.path) := paths_sflf_clear ns target
  exact optimize_invariant _ _ i (by rw [findNativeIdx_congr hpaths]; exact hfind2)

/-- C6 witness: three enabled natives with no prior constraints; force-first
on `x.dll` leaves constraints on `a.dll` and `b.dll`, and neither retained
target reaches the other. -/
theorem c6_witness :
    findNativeIdx [{ path := "x.dll" }, { path := "a.dll" }, { path := "b.dll" }]
      (cleanExt "x.dll") = some 0 ∧
    ([{ path := "x.dll" }, { path := "a.dll" }, { path := "b.dll" }] :
      List Native)[0]? = some { path := "x.dll" } ∧
    findNativeIdx [{ path := "x.dll" }, { path := "a.dll" }, { path := "b.dll" }]
      (cleanExt (pathName ({ path := "x.dll" } : Native).path)) = some 0 ∧
    dll_depends_on (set_force_load_first_native
      [{ path := "x.dll" }, { path := "a.dll" }, { path := "b.dll" }] "x.dll").2
      "b.dll" "a.dll" = false :=
  ⟨by decide, by decide, by decide,
   c6_force_first_drops_reachable_targets
     [{ path := "x.dll" }, { path := "a.dll" }, { path := "b.dll" }] "x.dll" 0
     { path := "x.dll" } (by decide) (by decide) (by decide)
     { path := "x.dll", load_before := some [⟨"a.dll", false⟩, ⟨"b.dll", false⟩] }
     (by decide) [⟨"a.dll", false⟩, ⟨"b.dll", false⟩] rfl
     ⟨"a.dll", false⟩ (by decide) ⟨"b.dll", false⟩ (by decide) (by decide)⟩

/-! ### C3 -/

theorem all_bne_of_any_beq_false {l : List Dep} {x : String}
    (h : l.any (fun dp => dp.id == x) = false) :
    l.all (fun dp => dp.id != x) = true := by
  rw [List.any_eq_false] at h
  rw [List.all_eq_true]
  intro dp hdp
  have hf : (dp.id == x) = false := by
    rcases Bool.eq_false_or_eq_true (dp.id == x) with htr | hfa
    · exact absurd htr (h dp hdp)
    · exact hfa
  simp [bne, hf]

theorem any_beq_false_of_all_bne {l : List Dep} {x : String}
    (h : l.all (fun dp => dp.id != x) = true) :
    l.any (fun dp => dp.id == x) = false := by
  rw [List.all_eq_true] at h
  rw [List.any_eq_false]
  intro dp hdp htr
  have hb := h dp hdp
  rw [bne_iff_ne] at hb
  exact hb (by rwa [beq_iff_eq] at htr)

/-- A native whose file name differs from `from_dll` passes through
`_remove_reverse_dependency` untouched. -/
theorem remove_reverse_skip {ns : List Native} {k : Nat} {m : Native}
    (hk : ns[k]? = some m) (f t : String) (hne : pathName m.path ≠ f) :
    (remove_reverse_dependency ns f t)[k]? = some m := by
  unfold remove_reverse_dependency
  rw [List.getElem?_map, hk]
  simp [hne]

theorem length_sso_after_cycle_check (ns : List Native) (fn sn : Native) :
    (sso_after_cycle_check ns fn sn).length = ns.length := by
  unfold sso_after_cycle_check
  split
  · unfold remove_reverse_dependency
    exact List.length_map _ _
  · rfl

/-- Evaluation of a successful `set_specific_dll_order` call once the lookup
results are known. -/
theorem sso_eval {ns : List Native} {fc sc : String} {i j : Nat} {fn sn fn1 : Native}
    (hcf : cleanExt fc = fc) (hcs : cleanExt sc = sc)
    (hpair : findPairIdx ns fc sc = (some i, some j))
    (hfn : ns[i]? = some fn) (hsn : ns[j]? = some sn)
    (hen1 : fn.enabled = true) (hen2 : sn.enabled = true)
    (hcc : (sso_after_cycle_check ns fn sn)[i]? = some fn1) :
    set_specific_dll_order ns fc sc
      = (true, (sso_after_cycle_check ns fn sn).set i
          { fn1 with load_before := some (sso_new_load_before fn1 (pathName sn.path)) }) := by
  unfold set_specific_dll_order
  rw [hcf, hcs, hpair]
  simp only [hfn, hsn, hen1, hen2, Bool.and_self, if_true, hcc]

/-- C3: with enabled natives resolving cleanly to `a` at index `i` and `b`
at index `j`, running `set_specific_dll_order(a, b)` and then
`set_specific_dll_order(b, a)` leaves the `b` native's `load_before` with
exactly one constraint on `a` — `{id: a, optional: false}` — while the `a`
native's `load_before` carries no constraint on `b`: the reverse edge is
removed before the new direction is appended, and the duplicate guard keeps
single edges. -/
theorem c3_pairwise_order_last_write_wins (ns : List Native) (a b : String) (i j : Nat)
    (na nb : Native)
    (hca : cleanExt a = a) (hcb : cleanExt b = b)
    (hij : findPairIdx ns a b = (some i, some j))
    (hji : findPairIdx ns b a = (some j, some i))
    (hna : ns[i]? = some na) (hnb : ns[j]? = some nb)
    (hena : na.enabled = true) (henb : nb.enabled = true)
    (hnamea : pathName na.path = a) (hnameb : pathName nb.path = b)
    (hab : a ≠ b) :
    (∃ nb2, (set_specific_dll_order (set_specific_dll_order ns a b).2 b a).2[j]? = some nb2 ∧
      (nb2.load_before.getD []).filter (fun dp => dp.id == a) = [⟨a, false⟩]) ∧
    (∃ na2, (set_specific_dll_order (set_specific_dll_order ns a b).2 b a).2[i]? = some na2 ∧
      (na2.load_before.getD []).all (fun dp => dp.id != b) = true) := by
  have hij_ne : i ≠ j := by
    intro hcontra
    subst hcontra
    rw [hna] at hnb
    injection hnb with hnb'
    apply hab
    rw [← hnamea, ← hnameb, hnb']
  have hlen_i : i < ns.length := (List.getElem?_eq_some_iff.mp hna).1
  have hlen_j : j < ns.length := (List.getElem?_eq_some_iff.mp hnb).1
  have hns1i : (sso_after_cycle_check ns na nb)[i]? = some na := by
    unfold sso_after_cycle_check
    split
    · rw [hnamea, hnameb]
      exact remove_reverse_skip hna b a (by rw [hnamea]; exact hab)
    · exact hna
  have hK2 : ∃ nb1, (sso_after_cycle_check ns na nb)[j]? = some nb1 ∧
      nb1.path = nb.path ∧ nb1.enabled = nb.enabled ∧
      (nb1.load_before.getD []).all (fun dp => dp.id != a) = true := by
    unfold sso_after_cycle_check
    split
    · rw [hnamea, hnameb]
      unfold remove_reverse_dependency
      rw [List.getElem?_map, hnb]
      by_cases hlbe : (nb.load_before.getD []).isEmpty = true
      · have hlbe0 : nb.load_before.getD [] = [] := by
          rwa [List.isEmpty_eq_true] at hlbe
        refine ⟨nb, by simp [hlbe0], rfl, rfl, ?_⟩
        rw [hlbe0]
        simp
      · have hlbe0 : nb.load_before.getD [] ≠ [] := by
          simpa using hlbe
        refine ⟨{ nb with load_before := (if (rr_kept nb a).isEmpty then none
            else some (rr_kept nb a)) }, ?_, rfl, rfl, ?_⟩
        · simp [hnameb, henb, hlbe0]
        · show ((if (rr_kept nb a).isEmpty then none
              else some (rr_kept nb a) : Option (List Dep)).getD []).all
              (fun dp => dp.id != a) = true
          split
          · simp
          · rw [Option.getD_some, List.all_eq_true]
            intro dp hdp
            exact (List.mem_filter.mp hdp).2
    · rename_i hncirc
      refine ⟨nb, hnb, rfl, rfl, ?_⟩
      apply all_bne_of_any_beq_false
      rcases Bool.eq_false_or_eq_true ((nb.load_before.getD []).any
        (fun dp => dp.id == a)) with htr | hfa
      · exfalso
        apply hncirc
        unfold would_create_circular_dependency
        rw [List.any_eq_true]
        refine ⟨nb, List.getElem?_mem hnb, ?_⟩
        rw [Bool.and_eq_true, Bool.and_eq_true]
        refine ⟨⟨henb, beq_self_eq_true _⟩, ?_⟩
        rw [hnamea]
        exact htr
      · exact hfa
  obtain ⟨nb1, hns1j, hnb1path, hnb1en, hnb1all⟩ := hK2
  have henb1 : nb1.enabled = true := hnb1en.trans henb
  have e1 : set_specific_dll_order ns a b
      = (true, (sso_after_cycle_check ns na nb).set i
          { na with load_before := some (sso_new_load_before na b) }) := by
    have he := sso_eval hca hcb hij hna hnb hena henb hns1i
    rw [hnameb] at he
    exact he
  have hlen_ns1 : (sso_after_cycle_check ns na nb).length = ns.length :=
    length_sso_after_cycle_check ns na nb
  have hs1i : (set_specific_dll_order ns a b).2[i]?
      = some { na with load_before := some (sso_new_load_before na b) } := by
    rw [e1]
    exact List.getElem?_set_eq_of_lt _ (by rw [hlen_ns1]; exact hlen_i)
  have hs1j : (set_specific_dll_order ns a b).2[j]? = some nb1 := by
    rw [e1]
    show ((sso_after_cycle_check ns na nb).set i _)[j]? = some nb1
    rw [List.getElem?_set_ne hij_ne]
    exact hns1j
  have hK1 : (sso_new_load_before na b).any (fun dp => dp.id == b) = true := by
    unfold sso_new_load_before
    split
    · rename_i hc
      exact hc
    · rw [List.any_append]
      simp
  have hpaths_s1 : (set_specific_dll_order ns a b).2.map (fun n => n.path)
      = ns.map (fun n => n.path) := paths_sso ns a b
  have hij2 : findPairIdx (set_specific_dll_order ns a b).2 b a = (some j, some i) := by
    rw [findPairIdx_congr hpaths_s1]
    exact hji
  have hna'path :
      pathName ({ na with load_before := some (sso_new_load_before na b) } : Native).path
        = a := hnamea
  have hcirc2 : would_create_circular_dependency (set_specific_dll_order ns a b).2
      (pathName nb1.path)
      (pathName ({ na with load_before := some (sso_new_load_before na b) } : Native).path)
      = true := by
    unfold would_create_circular_dependency
    rw [List.any_eq_true]
    refine ⟨{ na with load_before := some (sso_new_load_before na b) },
      List.getElem?_mem hs1i, ?_⟩
    rw [Bool.and_eq_true, Bool.and_eq_true]
    refine ⟨⟨hena, beq_self_eq_true _⟩, ?_⟩
    rw [hnb1path, hnameb]
    exact hK1
  have hns1'j : (sso_after_cycle_check (set_specific_dll_order ns a b).2 nb1
      { na with load_before := some (sso_new_load_before na b) })[j]? = some nb1 := by
    unfold sso_after_cycle_check
    rw [if_pos hcirc2]
    exact remove_reverse_skip hs1j _ _
      (by rw [hnb1path, hnameb, hna'path]; exact Ne.symm hab)
  have e2 : set_specific_dll_order (set_specific_dll_order ns a b).2 b a
      = (true, (sso_after_cycle_check (set_specific_dll_order ns a b).2 nb1
          { na with load_before := some (sso_new_load_before na b) }).set j
          { nb1 with load_before := some (sso_new_load_before nb1 a) }) := by
    have he := sso_eval hcb hca hij2 hs1j hs1i henb1 hena hns1'j
    rw [hna'path] at he
    exact he
  have hlen_cc2 : (sso_after_cycle_check (set_specific_dll_order ns a b).2 nb1
      { na with load_before := some (sso_new_load_before na b) }).length = ns.length := by
    have h1 : (set_specific_dll_order ns a b).2.length = ns.length := by
      have := congrArg List.length hpaths_s1
      simpa using this
    rw [length_sso_after_cycle_check]
    exact h1
  have hnoa : (nb1.load_before.getD []).any (fun dp => dp.id == a) = false :=
    any_beq_false_of_all_bne hnb1all
  constructor
  · have hlb2 : sso_new_load_before nb1 a = nb1.load_before.getD [] ++ [⟨a, false⟩] := by
      unfold sso_new_load_before
      rw [hnoa]
      simp
    refine ⟨{ nb1 with load_before := some (sso_new_load_before nb1 a) }, ?_, ?_⟩
    · rw [e2]
      exact List.getElem?_set_eq_of_lt _ (by rw [hlen_cc2]; exact hlen_j)
    · show ((some (sso_new_load_before nb1 a)).getD []).filter (fun dp => dp.id == a)
        = [⟨a, false⟩]
      rw [Option.getD_some, hlb2, List.filter_append]
      have h1 : (nb1.load_before.getD []).filter (fun dp => dp.id == a) = [] := by
        rw [List.filter_eq_nil_iff]
        intro dp hdp
        exact (List.any_eq_false.mp hnoa) dp hdp
      rw [h1]
      simp
  · have hlbne : (sso_new_load_before na b).isEmpty = false := by
      rcases Bool.eq_false_or_eq_true ((sso_new_load_before na b).isEmpty) with htr | hfa
      · exfalso
        rw [List.isEmpty_eq_true] at htr
        rw [htr] at hK1
        simp at hK1
      · exact hfa
    have hlbne0 : sso_new_load_before na b ≠ [] := by
      simpa using hlbne
    have hi2 : (sso_after_cycle_check (set_specific_dll_order ns a b).2 nb1
        { na with load_before := some (sso_new_load_before na b) })[i]?
        = some { na with load_before := (if (rr_kept
            ({ na with load_before := some (sso_new_load_before na b) } : Native)
            (pathName nb1.path)).isEmpty then none
          else some (rr_kept
            ({ na with load_before := some (sso_new_load_before na b) } : Native)
            (pathName nb1.path))) } := by
      unfold sso_after_cycle_check
      rw [if_pos hcirc2]
      unfold remove_reverse_dependency
      rw [List.getElem?_map, hs1i]
      simp [hena, hlbne0]
    refine ⟨{ na with load_before := (if (rr_kept
        ({ na with load_before := some (sso_new_load_before na b) } : Native)
        (pathName nb1.path)).isEmpty then none
      else some (rr_kept
        ({ na with load_before := some (sso_new_load_before na b) } : Native)
        (pathName nb1.path))) }, ?_, ?_⟩
    · rw [e2]
      show ((sso_after_cycle_check (set_specific_dll_order ns a b).2 nb1
          { na with load_before := some (sso_new_load_before na b) }).set j _)[i]?
        = some _
      rw [List.getElem?_set_ne (Ne.symm hij_ne)]
      exact hi2
    · show ((if (rr_kept
          ({ na with load_before := some (sso_new_load_before na b) } : Native)
          (pathName nb1.path)).isEmpty then none
        else some (rr_kept
          ({ na with load_before := some (sso_new_load_before na b) } : Native)
          (pathName nb1.path)) : Option (List Dep)).getD []).all
        (fun dp => dp.id != b) = true
      rw [hnb1path, hnameb]
      split
      · simp
      · rw [Option.getD_some, List.all_eq_true]
        intro dp hdp
        exact (List.mem_filter.mp hdp).2

/-- C3 witness: two enabled natives `a.dll`, `b.dll`; after the two calls,
`b.dll` carries exactly `{id: a.dll, optional: false}` and `a.dll` carries
no edge on `b.dll`. -/
theorem c3_witness :
    (∃ nb2, (set_specific_dll_order
        (set_specific_dll_order [{ path := "a.dll" }, { path := "b.dll" }]
          "a.dll" "b.dll").2 "b.dll" "a.dll").2[1]? = some nb2 ∧
      (nb2.load_before.getD []).filter (fun dp => dp.id == "a.dll")
        = [⟨"a.dll", false⟩]) ∧
    (∃ na2, (set_specific_dll_order
        (set_specific_dll_order [{ path := "a.dll" }, { path := "b.dll" }]
          "a.dll" "b.dll").2 "b.dll" "a.dll").2[0]? = some na2 ∧
      (na2.load_before.getD []).all (fun dp => dp.id != "b.dll") = true) :=
  c3_pairwise_order_last_write_wins [{ path := "a.dll" }, { path := "b.dll" }]
    "a.dll" "b.dll" 0 1 { path := "a.dll" } { path := "b.dll" }
    (by decide) (by decide) (by decide) (by decide) (by decide) (by decide)
    (by decide) (by decide) (by decide) (by decide) (by decide)

/-! ### C7 -/

/-- C7: `set_specific_dll_order(first, second)` returns `false` and leaves the
native collection unchanged whenever the pair lookup fails — either native
missing by the filename/path/suffix match, or either matched native
disabled. -/
theorem c7_failed_lookup_is_noop (ns : List Native) (a b : String)
    (h : pair_lookup_ok ns a b = false) :
    set_specific_dll_order ns a b = (false, ns) := by
  rcases sso_cases ns a b with hc | ⟨i, j, fn, sn, fn1, hpair, h1, h2, he1, he2, h3, heq⟩
  · exact hc
  · exfalso
    unfold pair_lookup_ok at h
    rw [hpair] at h
    simp only [h1, h2, he1, he2, Bool.and_self] at h
    exact Bool.noConfusion h

/-- C7 witness: a disabled first native makes the call a no-op. -/
theorem c7_witness :
    pair_lookup_ok [{ path := "a.dll", enabled := false }, { path := "b.dll" }]
      "a.dll" "b.dll" = false ∧
    set_specific_dll_order [{ path := "a.dll", enabled := false }, { path := "b.dll" }]
      "a.dll" "b.dll"
      = (false, [{ path := "a.dll", enabled := false }, { path := "b.dll" }]) :=
  ⟨by decide, c7_failed_lookup_is_noop _ "a.dll" "b.dll" (by decide)⟩

/-! ### C8 -/

/-- C8: `add_package` and `add_native` reject a duplicate of the
decoration-stripped identifier (exact id for packages, exact path for
natives) as `false` with the collection unchanged, and otherwise append one
new entity and return `true`. -/
theorem c8_add_rejects_duplicates :
    (∀ (eps : List (String × String)) (ps : List Package) (pid src : String) (en : Bool),
      (ps.any (fun p => p.id == strip_external_decoration pid) = true →
        add_package eps ps pid src en = (false, ps)) ∧
      (ps.any (fun p => p.id == strip_external_decoration pid) = false →
        ∃ newPkg, add_package eps ps pid src en = (true, ps ++ [newPkg]) ∧
          newPkg.id = strip_external_decoration pid)) ∧
    (∀ (ens : List (String × String)) (ns : List Native) (dp : String) (o e le : Bool),
      (ns.any (fun n => n.path == strip_external_decoration dp) = true →
        add_native ens ns dp o e le = (false, ns)) ∧
      (ns.any (fun n => n.path == strip_external_decoration dp) = false →
        ∃ newNat, add_native ens ns dp o e le = (true, ns ++ [newNat]))) := by
  constructor
  · intro eps ps pid src en
    constructor
    · intro h
      simp [add_package, h]
    · intro h
      refine ⟨{ id := strip_external_decoration pid,
                source := add_package_source eps pid src,
                enabled := en, is_external := pyEndsWith pid extTag }, ?_, rfl⟩
      simp [add_package, h]
  · intro ens ns dp o e le
    constructor
    · intro h
      simp [add_native, h]
    · intro h
      refine ⟨{ path := add_native_path ens dp, optional := o, enabled := e,
                load_early := add_native_load_early dp le,
                is_external := pyEndsWith dp extTag }, ?_⟩
      simp [add_native, h]

/-- C8 witness: a duplicate package id is rejected; a fresh native is
appended. -/
theorem c8_witness :
    add_package [] [{ id := "a", source := "s" }] "a" "t" true
      = (false, [{ id := "a", source := "s" }]) ∧
    ∃ newNat, add_native [] [] "x.dll" false true false = (true, [] ++ [newNat]) :=
  ⟨(c8_add_rejects_duplicates.1 [] [{ id := "a", source := "s" }] "a" "t" true).1 (by decide),
   (c8_add_rejects_duplicates.2 [] [] "x.dll" false true false).2 (by decide)⟩

/-! ### C9 -/

/-- C9 counterexample: the claim evaluates the co-op fragment on `dll_path`
itself, but the code evaluates it on the decoration-stripped path.  The
decorated path below does not contain the fragment `nrsc.dll`, its
lower-cased form included, yet the successful `add_native` call with
`load_early=False` appends a native with `load_early=True`, because
stripping `" (外部)"` creates the fragment. -/
theorem c9_counterexample :
    strContains (pyLower "seamlesscoop/nrsc (外部).dll (外部)") "nrsc.dll" = false ∧
    (add_native [] [] "seamlesscoop/nrsc (外部).dll (外部)" false true false).1 = true ∧
    (add_native [] [] "seamlesscoop/nrsc (外部).dll (外部)" false true false).2.map
      (fun n => n.load_early) = [true] := by
  refine ⟨by decide, by decide, by decide⟩

/-- The early-load default is `load_early or (both fragments occur in the
lower-cased stripped path)`. -/
theorem add_native_load_early_eq (dp : String) (le : Bool) :
    add_native_load_early dp le
      = (le || (strContains (pyLower (strip_external_decoration dp)) "seamlesscoop"
          && strContains (pyLower (strip_external_decoration dp)) "nrsc.dll")) := by
  cases le <;>
    cases hA : strContains (pyLower (strip_external_decoration dp)) "seamlesscoop" <;>
      cases hB : strContains (pyLower (strip_external_decoration dp)) "nrsc.dll" <;>
        simp [add_native_load_early, hA, hB]

/-- C9 (amended): the SeamlessCoop early-load default is keyed on the
decoration-stripped path: a successful `add_native` appends `load_early`
equal to the argument or-ed with the fragment test on the stripped path's
lower-cased form. -/
theorem c9_load_early_from_stripped_path (ens : List (String × String)) (ns : List Native)
    (dp : String) (o e le : Bool)
    (h : (add_native ens ns dp o e le).1 = true) :
    (add_native ens ns dp o e le).2.map (fun n => n.load_early)
      = ns.map (fun n => n.load_early)
        ++ [le || (strContains (pyLower (strip_external_decoration dp)) "seamlesscoop"
            && strContains (pyLower (strip_external_decoration dp)) "nrsc.dll")] := by
  by_cases hdup : ns.any (fun n => n.path == strip_external_decoration dp) = true
  · simp [add_native, hdup] at h
  · simp [add_native, hdup, add_native_load_early_eq]

/-- C9 witness: a clean SeamlessCoop path gets `load_early=True` despite the
`False` argument. -/
theorem c9_witness :
    (add_native [] [] "SeamlessCoop/nrsc.dll" false true false).1 = true ∧
    (add_native [] [] "SeamlessCoop/nrsc.dll" false true false).2.map (fun n => n.load_early)
      = ([] : List Native).map (fun n => n.load_early)
        ++ [false || (strContains (pyLower (strip_external_decoration "SeamlessCoop/nrsc.dll"))
              "seamlesscoop"
            && strContains (pyLower (strip_external_decoration "SeamlessCoop/nrsc.dll"))
              "nrsc.dll")] :=
  ⟨by decide, c9_load_early_from_stripped_path [] [] "SeamlessCoop/nrsc.dll" false true false
    (by decide)⟩

/-! ### C10 -/

/-- C10 counterexample: with two field-equal packages the clearing loop's
structural inequality skips the duplicate, so a package other than the
target keeps its `load_after`. -/
theorem c10_counterexample :
    (set_force_load_last
      [{ id := "a", source := "", load_after := some [⟨"c", true⟩] },
       { id := "a", source := "", load_after := some [⟨"c", true⟩] }] "a").1 = true ∧
    (set_force_load_last
      [{ id := "a", source := "", load_after := some [⟨"c", true⟩] },
       { id := "a", source := "", load_after := some [⟨"c", true⟩] }] "a").2.map
      (fun p => p.load_after)
      = [none, some [⟨"c", true⟩]] := by
  refine ⟨by decide, by decide⟩

/-- C10 (amended): when the target is found at index `i`, the call returns
`true` (the target may be disabled) and every other position holds the old
package with `load_after` cleared — except entries field-equal to the
target, which the structural inequality check skips; all other fields are
untouched. -/
theorem c10_clears_all_other_positions (ps : List Package) (X : String) (i : Nat)
    (target : Package)
    (hfind : ps.findIdx? (fun p => p.id == cleanExt X) = some i)
    (hi : ps[i]? = some target) :
    (set_force_load_last ps X).1 = true ∧
    ∀ j, j ≠ i →
      (set_force_load_last ps X).2[j]?
        = ps[j]?.map (fun p => if decide (p = target) then p
            else { p with load_after := none }) := by
  unfold set_force_load_last
  simp only [hfind, hi]
  refine ⟨by trivial, ?_⟩
  intro j hj
  rw [List.getElem?_set_ne (fun he => hj he.symm)]
  unfold sfll_clear_others
  rw [List.getElem?_map]

/-- C10 witness: a disabled target still succeeds, and position 1 is cleared
while keeping its other fields. -/
theorem c10_witness :
    (set_force_load_last
      [{ id := "a", source := "", enabled := false },
       { id := "b", source := "sb", load_after := some [⟨"z", false⟩] }] "a").1 = true ∧
    (set_force_load_last
      [{ id := "a", source := "", enabled := false },
       { id := "b", source := "sb", load_after := some [⟨"z", false⟩] }] "a").2[1]?
      = ([{ id := "a", source := "", enabled := false },
          { id := "b", source := "sb", load_after := some [⟨"z", false⟩] }] :
            List Package)[1]?.map
          (fun p => if decide (p = { id := "a", source := "", enabled := false }) then p
            else { p with load_after := none }) :=
  ⟨(c10_clears_all_other_positions
      [{ id := "a", source := "", enabled := false },
       { id := "b", source := "sb", load_after := some [⟨"z", false⟩] }] "a" 0
      { id := "a", source := "", enabled := false } (by decide) (by decide)).1,
   (c10_clears_all_other_positions
      [{ id := "a", source := "", enabled := false },
       { id := "b", source := "sb", load_after := some [⟨"z", false⟩] }] "a" 0
      { id := "a", source := "", enabled := false } (by decide) (by decide)).2 1 (by decide)⟩

/-! ### C2 -/

/-- C2 counterexample: a package id that contains the decoration `" (外部)"`
mid-string is storable by `add_package` (the suffix test fails, so nothing is
stripped on store), but `set_force_load_last` strips all occurrences before
the lookup, finds nothing, and returns `false` — although a package with
that id and another enabled package are both present. -/
theorem c2_counterexample :
    ([{ id := "m (外部) n", source := "" }, { id := "b", source := "" }] :
        List Package).any (fun p => p.id == "m (外部) n") = true ∧
    ([{ id := "m (外部) n", source := "" }, { id := "b", source := "" }] :
        List Package).any (fun p => p.enabled && p.id != "m (外部) n") = true ∧
    (set_force_load_last
      [{ id := "m (外部) n", source := "" }, { id := "b", source := "" }]
      "m (外部) n").1 = false := by
  refine ⟨by decide, by decide, by decide⟩

/-- C2 (amended): for a decoration-free id `X` found at index `i`, the call
returns `true` and that package's `load_after` becomes the ids of the
enabled packages whose id differs from `X` (in collection order), each as
`{id, optional: true}`, or `None` when there are none. -/
theorem c2_force_last_rebuilds_load_after (ps : List Package) (X : String) (i : Nat)
    (target : Package)
    (hX : cleanExt X = X)
    (hfind : ps.findIdx? (fun p => p.id == X) = some i)
    (hi : ps[i]? = some target) :
    (set_force_load_last ps X).1 = true ∧
    (set_force_load_last ps X).2[i]?
      = some { target with load_after := (sfll_new_load_after (other_enabled_mod_ids ps X)) } := by
  unfold set_force_load_last
  rw [hX]
  simp only [hfind, hi]
  refine ⟨by trivial, ?_⟩
  have hlen : i < ps.length := by
    rcases List.getElem?_eq_some_iff.mp hi with ⟨h, _⟩
    exact h
  have hlen' : i < (sfll_clear_others ps target).length := by
    unfold sfll_clear_others
    simpa using hlen
  rw [List.getElem?_set_eq_of_lt _ hlen']
  have hoe : other_enabled_mod_ids (sfll_clear_others ps target) X
      = other_enabled_mod_ids ps X := by
    unfold sfll_clear_others
    exact other_ids_map_invariant (fun p => by split <;> exact ⟨rfl, rfl⟩) ps X
  rw [hoe]

/-- C2 witness: the spec scenario — packages A, B, C enabled, force-last on
B yields `B.load_after == [{A, optional: true}, {C, optional: true}]`. -/
theorem c2_witness :
    (set_force_load_last
      [{ id := "A", source := "" }, { id := "B", source := "" },
       { id := "C", source := "" }] "B").1 = true ∧
    (set_force_load_last
      [{ id := "A", source := "" }, { id := "B", source := "" },
       { id := "C", source := "" }] "B").2[1]?
      = some { id := "B", source := "", load_after := some [⟨"A", true⟩, ⟨"C", true⟩] } :=
  ⟨(c2_force_last_rebuilds_load_after
      [{ id := "A", source := "" }, { id := "B", source := "" }, { id := "C", source := "" }]
      "B" 1 { id := "B", source := "" } (by decide) (by decide) (by decide)).1,
   (c2_force_last_rebuilds_load_after
      [{ id := "A", source := "" }, { id := "B", source := "" }, { id := "C", source := "" }]
      "B" 1 { id := "B", source := "" } (by decide) (by decide) (by decide)).2⟩

/-! ### C5 -/

/-- C5: for a decoration-free package id `X` that is found and has a
`load_after` list, `is_force_load_last(X)` is `true` exactly when the
intersection of the list's target ids with the other enabled package ids has
size at least 1 when there are at most 3 other enabled packages, and size at
least 50% of their number when there are more than 3. -/
theorem c5_overlap_threshold (ps : List Package) (X : String) (pkg : Package) (la : List Dep)
    (hX : cleanExt X = X)
    (hfind : ps.find? (fun p => p.id == X) = some pkg)
    (hla : pkg.load_after = some la) :
    (is_force_load_last ps X = true ↔
      (if (ifll_other_enabled ps X).length ≤ 3
       then 1 ≤ ifll_inter_count la (ifll_other_enabled ps X)
       else (ifll_other_enabled ps X).length
          ≤ 2 * ifll_inter_count la (ifll_other_enabled ps X))) := by
  unfold is_force_load_last
  rw [hX]
  simp only [hfind, hla, Option.getD_some]
  by_cases hemp : la = []
  · subst hemp
    have hcnt : ifll_inter_count [] (ifll_other_enabled ps X) = 0 := by
      simp [ifll_inter_count]
    simp only [hcnt, List.isEmpty_nil, if_true]
    constructor
    · intro h
      exact absurd h (by simp)
    · intro h
      exfalso
      split at h <;> omega
  · have hempb : la.isEmpty = false := by simpa using hemp
    simp only [hempb, Bool.false_eq_true, if_false]
    by_cases hn : (ifll_other_enabled ps X).length = 0
    · have hnil : ifll_other_enabled ps X = [] := List.length_eq_zero.mp hn
      have hcnt : ifll_inter_count la [] = 0 := by
        simp [ifll_inter_count, List.contains_eq_any_beq]
      simp only [hn, if_true, hnil, hcnt, List.length_nil]
      constructor
      · intro h
        exact absurd h (by simp)
      · intro h
        exfalso
        split at h <;> omega
    · by_cases hn3 : (ifll_other_enabled ps X).length ≤ 3
      · simp [hn, hn3, decide_eq_true_iff]
      · simp [hn, hn3, decide_eq_true_iff]

/-- C5 witness: two other enabled packages (≤ 3) and a single overlapping
reference make the detection succeed. -/
theorem c5_witness :
    (is_force_load_last
      [{ id := "x", source := "", load_after := some [⟨"p", true⟩] },
       { id := "p", source := "" }, { id := "q", source := "" }] "x" = true ↔
      (if (ifll_other_enabled
            [{ id := "x", source := "", load_after := some [⟨"p", true⟩] },
             { id := "p", source := "" }, { id := "q", source := "" }] "x").length ≤ 3
       then 1 ≤ ifll_inter_count [⟨"p", true⟩]
          (ifll_other_enabled
            [{ id := "x", source := "", load_after := some [⟨"p", true⟩] },
             { id := "p", source := "" }, { id := "q", source := "" }] "x")
       else (ifll_other_enabled
            [{ id := "x", source := "", load_after := some [⟨"p", true⟩] },
             { id := "p", source := "" }, { id := "q", source := "" }] "x").length
          ≤ 2 * ifll_inter_count [⟨"p", true⟩]
              (ifll_other_enabled
                [{ id := "x", source := "", load_after := some [⟨"p", true⟩] },
                 { id := "p", source := "" }, { id := "q", source := "" }] "x"))) :=
  c5_overlap_threshold
    [{ id := "x", source := "", load_after := some [⟨"p", true⟩] },
     { id := "p", source := "" }, { id := "q", source := "" }]
    "x" { id := "x", source := "", load_after := some [⟨"p", true⟩] } [⟨"p", true⟩]
    (by decide) (by decide) (by decide)

/-! ### C4 -/

/-- C4: `is_force_load_first_native(D)` returns `true` only if some native
matching `D` has a non-absent, non-empty `load_before` whose target ids
cover the file name of every other currently enabled native. -/
theorem c4_force_first_needs_superset (ns : List Native) (d : String)
    (h : is_force_load_first_native ns d = true) :
    ∃ n, n ∈ ns ∧ matchesNative n (cleanExt d) = true ∧
      ∃ l, n.load_before = some l ∧ l ≠ [] ∧
        ∀ o, o ∈ ns → o.enabled = true → o ≠ n →
          pathName o.path ∈ l.map (fun dep => dep.id) := by
  unfold is_force_load_first_native at h
  rcases hf : ns.find? (fun n => matchesNative n (cleanExt d)
      && !(n.load_before.getD []).isEmpty) with _ | n
  · rw [hf] at h
    exact Bool.noConfusion h
  · rw [hf] at h
    have hmem := List.mem_of_find?_eq_some hf
    have hpred := List.find?_some hf
    rw [Bool.and_eq_true] at hpred
    obtain ⟨hmatch, hlb⟩ := hpred
    rcases hlbv : n.load_before with _ | l
    · rw [hlbv] at hlb
      simp at hlb
    · have hlne : l ≠ [] := by
        rw [hlbv] at hlb
        simpa using hlb
      refine ⟨n, hmem, hmatch, l, hlbv, hlne, ?_⟩
      intro o ho hoe hone
      rw [List.all_eq_true] at h
      have hoin : pathName o.path ∈ other_enabled_dll_names ns n := by
        unfold other_enabled_dll_names
        exact List.mem_map_of_mem _ (List.mem_filter.mpr ⟨ho, by simp [hoe, hone]⟩)
      have hcont := h _ hoin
      rw [hlbv, Option.getD_some] at hcont
      obtain ⟨x, hx, hbeq⟩ := List.contains_iff_exists_mem_beq.mp hcont
      rw [beq_iff_eq] at hbeq
      rw [hbeq]
      exact hx

/-- C4 witness: a native whose `load_before` covers the only other enabled
native is detected, and the theorem's superset conclusion follows. -/
theorem c4_witness :
    is_force_load_first_native
      [{ path := "a.dll", load_before := some [⟨"b.dll", false⟩] },
       { path := "b.dll" }] "a.dll" = true ∧
    (∃ n, n ∈ ([{ path := "a.dll", load_before := some [⟨"b.dll", false⟩] },
          { path := "b.dll" }] : List Native) ∧
      matchesNative n (cleanExt "a.dll") = true ∧
      ∃ l, n.load_before = some l ∧ l ≠ [] ∧
        ∀ o, o ∈ ([{ path := "a.dll", load_before := some [⟨"b.dll", false⟩] },
              { path := "b.dll" }] : List Native) → o.enabled = true → o ≠ n →
          pathName o.path ∈ l.map (fun dep => dep.id)) :=
  ⟨by decide,
   c4_force_first_needs_superset
     [{ path := "a.dll", load_before := some [⟨"b.dll", false⟩] }, { path := "b.dll" }]
     "a.dll" (by decide)⟩

/-! ### C1 counterexample -/

/-- C1 counterexample: `update_load_dependencies` never filters packages'
`load_before`, so after it runs, the enabled package B still holds a
`load_before` constraint on the disabled package A's id. -/
theorem c1_counterexample :
    (update_load_dependencies
      [{ id := "A", source := "", enabled := false },
       { id := "B", source := "", load_before := some [⟨"A", true⟩] }] []).1
      = [{ id := "A", source := "", enabled := false },
         { id := "B", source := "", load_before := some [⟨"A", true⟩] }] ∧
    ({ id := "A", source := "", enabled := false } : Package).enabled = false ∧
    ({ id := "B", source := "", load_before := some [⟨"A", true⟩] } : Package).load_before
      = some [⟨"A", true⟩] := by
  refine ⟨by decide, rfl, rfl⟩

end Nmodm
